import Mathlib

/-!
# Verification of the music-master session-coordination core

Shallow embedding of the server-side managers:
* `PlayerManager` (src/server/src/managers/PlayerManager.js)
* `TeamManager`   (src/server/src/managers/TeamManager.js)
* `TurnManager`   (src/server/src/managers/TurnManager.js)
* `RoomManager`   (src/server/src/managers/RoomManager.js)

JavaScript `Map` objects are embedded as association lists in insertion
order: `set` replaces an existing binding in place or appends a new one,
`delete` removes the binding, `values()` is the list of second components.
Nondeterministic inputs of the source (nanoid outputs, `Date.now()`,
`Math.random` shuffles) are passed in as explicit parameters.
-/

namespace MusicMaster

/-- JS `Map` embedding: association list in insertion order. -/
abbrev JMap (α : Type) := List (String × α)

/-- `map.get(k)` : first (only) binding of `k`. -/
def mapGet {α : Type} : JMap α → String → Option α
  | [], _ => none
  | e :: rest, k => if e.1 = k then some e.2 else mapGet rest k

/-- `map.set(k, v)` : replace in place if the key is bound, else append. -/
def mapSet {α : Type} : JMap α → String → α → JMap α
  | [], k, v => [(k, v)]
  | e :: rest, k, v => if e.1 = k then (k, v) :: rest else e :: mapSet rest k v

/-- `map.delete(k)` : drop the binding of `k`. -/
def mapDelete {α : Type} : JMap α → String → JMap α
  | [], _ => []
  | e :: rest, k => if e.1 = k then mapDelete rest k else e :: mapDelete rest k

/-- A player record (PlayerManager.js, `createPlayer`). -/
structure Player where
  id : String
  socketId : String
  username : String
  teamId : Option Nat
  isConnected : Bool
  connectedAt : Nat
  roomId : Option String
deriving Repr, DecidableEq

/-- A team record (TeamManager.js, `createTeams`). -/
structure Team where
  id : Nat
  name : String
  players : List String
  score : Nat
deriving Repr, DecidableEq

/-- A room record (RoomManager.js, `createRoom`); the `gameState`
placeholder blob carries no information and is omitted. -/
structure Room where
  id : String
  hostSocketId : String
  players : JMap Player
  teams : List Team
  currentTurn : Nat
  gameStarted : Bool
  turnLocked : Bool
  createdAt : Nat
deriving Repr, DecidableEq

/-- The player registry `PlayerManager.players : Map<socketId, Player>`. -/
abbrev PMap := JMap Player

/-! ## PlayerManager -/

/-- `playerManager.getPlayer(socketId)`. -/
def getPlayer (reg : PMap) (socketId : String) : Option Player :=
  mapGet reg socketId

/-- `playerManager.createPlayer(socketId, username)`.
`freshId` and `freshSuffix` stand for the two `nanoid()` draws, `now` for
`Date.now()`.  The new record is stored with `players.set`, overwriting
any record already held under the same socket id. -/
def createPlayer (reg : PMap) (socketId : String) (username : Option String)
    (freshId freshSuffix : String) (now : Nat) : PMap × Player :=
  let player : Player :=
    { id := freshId
      socketId := socketId
      username := username.getD ("Player-" ++ freshSuffix)
      teamId := none
      isConnected := true
      connectedAt := now
      roomId := none }
  (mapSet reg socketId player, player)

/-- `playerManager.setPlayerTeam(socketId, teamId)` : updates the record in
place when the socket id is registered, otherwise does nothing. -/
def setPlayerTeam (reg : PMap) (socketId : String) (teamId : Nat) : PMap :=
  reg.map (fun e => if e.1 = socketId then (e.1, { e.2 with teamId := some teamId }) else e)

/-! ## TurnManager -/

/-- `turnManager.getCurrentTeam(room)` : `teams[currentTurn % teams.length]`,
`null` when the team list is empty. -/
def getCurrentTeam (room : Room) : Option Team :=
  if room.teams.length = 0 then none
  else room.teams.get? (room.currentTurn % room.teams.length)

/-- `turnManager.getCurrentTeamId(room)`. -/
def getCurrentTeamId (room : Room) : Option Nat :=
  (getCurrentTeam room).map Team.id

/-- Result of `validateTurn`: `{valid:false, message}` or `{valid:true, teamId}`. -/
inductive VResult where
  | reject (message : String)
  | accept (teamId : Nat)
deriving Repr, DecidableEq

/-- `turnManager.validateTurn(room, socketId)` : the check ladder of the
source, in source order. -/
def validateTurn (reg : PMap) (room : Room) (socketId : String) : VResult :=
  if ¬ room.gameStarted then .reject "Game has not started"
  else if room.turnLocked then .reject "Turn is locked, please wait"
  else
    match getCurrentTeam room with
    | none => .reject "No teams configured"
    | some currentTeam =>
      match getPlayer reg socketId with
      | none => .reject "Player not found"
      | some player =>
        if player.teamId ≠ some currentTeam.id then
          .reject ("Not your turn (waiting for " ++ currentTeam.name ++ ")")
        else .accept currentTeam.id

/-- `turnManager.lockTurn(room)`. -/
def lockTurn (room : Room) : Room := { room with turnLocked := true }

/-- `turnManager.unlockTurn(room)`. -/
def unlockTurn (room : Room) : Room := { room with turnLocked := false }

/-- Result record of `advanceTurn`. -/
structure AdvResult where
  success : Bool
  message : Option String
  team : Option Team
  turnNumber : Option Nat
deriving Repr, DecidableEq

/-- `turnManager.advanceTurn(room)` : increments `currentTurn` and unlocks
when the game has started, else fails without touching the room. -/
def advanceTurn (room : Room) : Room × AdvResult :=
  if ¬ room.gameStarted then
    (room, ⟨false, some "Game has not started", none, none⟩)
  else
    let room' := { room with currentTurn := room.currentTurn + 1, turnLocked := false }
    (room', ⟨true, none, getCurrentTeam room', some room'.currentTurn⟩)

/-- `turnManager.setTurn(room, teamId)` : forces the counter to the team's
ordinal (and force-unlocks) when the id is present, else does nothing. -/
def setTurn (room : Room) (teamId : Nat) : Room :=
  match room.teams.findIdx? (fun t => t.id == teamId) with
  | some teamIndex => { room with currentTurn := teamIndex, turnLocked := false }
  | none => room

/-- `turnManager.resetTurns(room)`. -/
def resetTurns (room : Room) : Room :=
  { room with currentTurn := 0, turnLocked := false }

/-- `advanceTurn` iterated, keeping only the room state. -/
def advanceN : Nat → Room → Room
  | 0, room => room
  | n + 1, room => advanceN n (advanceTurn room).1

/-! ## TeamManager -/

/-- In-place update of the team object at position `i` (JS mutation through
an array reference); positions out of range are left unchanged. -/
def updAt (l : List Team) (i : Nat) (f : Team → Team) : List Team :=
  match l.get? i with
  | some t => l.set i (f t)
  | none => l

/-- The list of team sizes, in team-array order. -/
def teamSizes (teams : List Team) : List Nat :=
  teams.map (fun t => t.players.length)

/-- Size of the team at position `i` (`0` out of range). -/
def sizeAt (teams : List Team) (i : Nat) : Nat :=
  ((teams.get? i).map (fun t => t.players.length)).getD 0

/-- Maximum of a list of sizes (`0` for the empty list). -/
def maxL (l : List Nat) : Nat := l.foldr max 0

/-- Minimum of a non-empty list of sizes (`0` for the empty list).  This is
`sortedTeams[0].players.length` of the source, which sorts ascending. -/
def minL : List Nat → Nat
  | [] => 0
  | a :: r => r.foldr min a

/-- `maxSize` of the source: `sortedTeams[sortedTeams.length-1].players.length`. -/
def maxSize (teams : List Team) : Nat := maxL (teamSizes teams)

/-- `minSize` of the source: `sortedTeams[0].players.length`. -/
def minSize (teams : List Team) : Nat := minL (teamSizes teams)

/-- Sum of squared entries: the termination measure for `balanceTeams`. -/
def sumSqL (l : List Nat) : Nat := (l.map (fun x => x * x)).sum

/-- Sum of squared team sizes. -/
def sumSq (teams : List Team) : Nat := sumSqL (teamSizes teams)

/-- Index of the first occurrence of `v` in `l` (length of `l` if absent,
but all uses are under a membership hypothesis). -/
def idxOfFirst : List Nat → Nat → Nat
  | [], _ => 0
  | a :: r, v => if a = v then 0 else idxOfFirst r v + 1

/-- The team the stable ascending sort puts first: the first team (in array
order) whose size is minimal — `sortedTeams[0]` of the source. -/
def firstMinIdx (teams : List Team) : Nat :=
  idxOfFirst (teamSizes teams) (minSize teams)

/-- The team the stable ascending sort puts last: the last team (in array
order) whose size is maximal — `sortedTeams[sortedTeams.length-1]`. -/
def lastMaxIdx (teams : List Team) : Nat :=
  teams.length - 1 - idxOfFirst (teamSizes teams).reverse (maxSize teams)

/-- One rebalancing move of `teamManager.balanceTeams`: `pop()` the last
member of the largest team, `push` it onto the smallest team, and record
the mover's new team in the player registry. -/
def moveOnce (reg : PMap) (teams : List Team) : List Team × PMap :=
  match teams.get? (lastMaxIdx teams), teams.get? (firstMinIdx teams) with
  | some largest, some smallest =>
    let moved := largest.players.getLast?
    let teams1 := updAt teams (lastMaxIdx teams)
      (fun t => { t with players := t.players.dropLast })
    let teams2 := updAt teams1 (firstMinIdx teams)
      (fun t => { t with players := t.players ++ moved.toList })
    let reg' := match moved with
      | some sid => setPlayerTeam reg sid smallest.id
      | none => reg
    (teams2, reg')
  | _, _ => (teams, reg)

lemma length_updAt (l : List Team) (i : Nat) (f : Team → Team) :
    (updAt l i f).length = l.length := by
  unfold updAt
  cases h : l.get? i with
  | none => rfl
  | some t => simp

lemma teamSizes_get? (teams : List Team) (i : Nat) :
    (teamSizes teams).get? i = (teams.get? i).map (fun t => t.players.length) := by
  simp [teamSizes, List.get?_eq_getElem?, List.getElem?_map]

lemma sizeAt_eq (teams : List Team) (i : Nat) :
    sizeAt teams i = ((teamSizes teams).get? i).getD 0 := by
  rw [teamSizes_get?]
  rfl

lemma teamSizes_updAt (teams : List Team) (i : Nat) (f : Team → Team)
    (t : Team) (h : teams.get? i = some t) :
    teamSizes (updAt teams i f) = (teamSizes teams).set i ((f t).players.length) := by
  unfold updAt
  rw [h]
  simp [teamSizes, List.map_set]

lemma sumSqL_set (l : List Nat) (i : Nat) (v : Nat) (h : i < l.length) :
    sumSqL (l.set i v) + (l.get? i).getD 0 * (l.get? i).getD 0 = sumSqL l + v * v := by
  induction l generalizing i with
  | nil => simp at h
  | cons a r ih =>
    cases i with
    | zero => simp [sumSqL]; ring
    | succ j =>
      have hj : j < r.length := by simpa using h
      have := ih j hj
      simp only [List.set, sumSqL, List.map, List.sum_cons, List.get?] at this ⊢
      omega

lemma foldr_min_mem (l : List Nat) (a : Nat) :
    l.foldr min a = a ∨ l.foldr min a ∈ l := by
  induction l with
  | nil => exact Or.inl rfl
  | cons c r ih =>
    simp only [List.foldr]
    rcases Nat.le_total c (r.foldr min a) with h | h
    · right
      rw [Nat.min_eq_left h]
      exact List.mem_cons_self c r
    · rw [Nat.min_eq_right h]
      rcases ih with h' | h'
      · exact Or.inl h'
      · exact Or.inr (List.mem_cons_of_mem c h')

lemma foldr_min_le_mem (l : List Nat) (a : Nat) :
    ∀ x ∈ l, l.foldr min a ≤ x := by
  induction l with
  | nil => intro x hx; simp at hx
  | cons c r ih =>
    intro x hx
    rcases List.mem_cons.mp hx with rfl | hx'
    · exact Nat.le_trans (Nat.min_le_left _ _) Nat.le.refl
    · exact Nat.le_trans (Nat.min_le_right _ _) (ih x hx')

lemma mem_minL (l : List Nat) (hl : l ≠ []) : minL l ∈ l := by
  match l with
  | a :: r =>
    simp only [minL]
    rcases foldr_min_mem r a with h | h
    · rw [h]; exact List.mem_cons_self a r
    · exact List.mem_cons_of_mem a h

lemma foldr_min_le_acc (l : List Nat) (a : Nat) : l.foldr min a ≤ a := by
  induction l with
  | nil => exact Nat.le.refl
  | cons c r ih => exact Nat.le_trans (Nat.min_le_right _ _) ih

lemma minL_le_mem (l : List Nat) : ∀ x ∈ l, minL l ≤ x := by
  match l with
  | [] => intro x hx; simp at hx
  | a :: r =>
    intro x hx
    simp only [minL]
    rcases List.mem_cons.mp hx with rfl | hx'
    · exact foldr_min_le_acc r x
    · exact foldr_min_le_mem r a x hx'

lemma mem_maxL (l : List Nat) (hl : l ≠ []) : maxL l ∈ l := by
  match l with
  | [a] => simp [maxL]
  | a :: b :: r =>
    have ih := mem_maxL (b :: r) (by simp)
    have hstep : maxL (a :: b :: r) = max a (maxL (b :: r)) := rfl
    rcases Nat.le_total a (maxL (b :: r)) with h | h
    · rw [hstep, Nat.max_eq_right h]
      exact List.mem_cons_of_mem a ih
    · rw [hstep, Nat.max_eq_left h]
      exact List.mem_cons_self _ _

lemma le_maxL (l : List Nat) : ∀ x ∈ l, x ≤ maxL l := by
  induction l with
  | nil => intro x hx; simp at hx
  | cons c r ih =>
    intro x hx
    rcases List.mem_cons.mp hx with rfl | hx'
    · exact Nat.le_max_left _ _
    · exact Nat.le_trans (ih x hx') (Nat.le_max_right _ _)

lemma idxOfFirst_spec (l : List Nat) (v : Nat) (h : v ∈ l) :
    idxOfFirst l v < l.length ∧ l.get? (idxOfFirst l v) = some v := by
  induction l with
  | nil => simp at h
  | cons a r ih =>
    by_cases hav : a = v
    · subst hav
      simp [idxOfFirst]
    · have hvr : v ∈ r := by
        rcases List.mem_cons.mp h with h' | h'
        · exact absurd h'.symm hav
        · exact h'
      obtain ⟨h1, h2⟩ := ih hvr
      constructor
      · simp only [idxOfFirst, if_neg hav, List.length_cons]
        omega
      · simpa [idxOfFirst, if_neg hav] using h2

lemma firstMinIdx_spec (teams : List Team) (hne : teams ≠ []) :
    firstMinIdx teams < teams.length ∧
      sizeAt teams (firstMinIdx teams) = minSize teams := by
  have hsz : teamSizes teams ≠ [] := by
    simpa [teamSizes] using hne
  have hmem : minSize teams ∈ teamSizes teams := mem_minL _ hsz
  obtain ⟨h1, h2⟩ := idxOfFirst_spec (teamSizes teams) (minSize teams) hmem
  have hlen : (teamSizes teams).length = teams.length := by simp [teamSizes]
  refine ⟨hlen ▸ h1, ?_⟩
  rw [sizeAt_eq]
  unfold firstMinIdx
  rw [h2]
  rfl

lemma get?_reverse_eq (l : List Nat) (i : Nat) (h : i < l.length) :
    l.reverse.get? i = l.get? (l.length - 1 - i) := by
  have h1 : l.reverse.get? i = some (l.reverse.get ⟨i, by simpa using h⟩) :=
    List.get?_eq_get (by simpa using h)
  have h2 : l.reverse.get ⟨i, by simpa using h⟩ =
      l.get ⟨l.length - 1 - i, by omega⟩ := by
    rw [List.get_reverse']
  rw [h1, h2]
  exact (List.get?_eq_get (by omega)).symm

lemma lastMaxIdx_spec (teams : List Team) (hne : teams ≠ []) :
    lastMaxIdx teams < teams.length ∧
      sizeAt teams (lastMaxIdx teams) = maxSize teams := by
  have hsz : teamSizes teams ≠ [] := by
    simpa [teamSizes] using hne
  have hmem : maxSize teams ∈ (teamSizes teams).reverse := by
    simpa using mem_maxL _ hsz
  obtain ⟨h1, h2⟩ := idxOfFirst_spec (teamSizes teams).reverse (maxSize teams) hmem
  have hlen : (teamSizes teams).length = teams.length := by simp [teamSizes]
  have h1' : idxOfFirst (teamSizes teams).reverse (maxSize teams) <
      (teamSizes teams).length := by simpa using h1
  have hrev := get?_reverse_eq (teamSizes teams)
    (idxOfFirst (teamSizes teams).reverse (maxSize teams)) h1'
  rw [hrev] at h2
  have hpos : 0 < teams.length := List.length_pos.mpr hne
  constructor
  · unfold lastMaxIdx
    omega
  · rw [sizeAt_eq]
    unfold lastMaxIdx
    rw [← hlen, h2]
    rfl

lemma gap_pos_ne_nil {teams : List Team}
    (h : maxSize teams - minSize teams > 1) : teams ≠ [] := by
  intro hnil
  subst hnil
  simp [maxSize, minSize, maxL, minL, teamSizes] at h

/-- A rebalancing move strictly decreases the sum of squared team sizes:
the termination measure of `balanceTeams`. -/
lemma sumSq_moveOnce_lt (reg : PMap) (teams : List Team) (hne : teams ≠ [])
    (h2 : sizeAt teams (firstMinIdx teams) + 1 < sizeAt teams (lastMaxIdx teams)) :
    sumSq (moveOnce reg teams).1 < sumSq teams := by
  obtain ⟨hMlt, _⟩ := lastMaxIdx_spec teams hne
  obtain ⟨hmlt, _⟩ := firstMinIdx_spec teams hne
  obtain ⟨largest, hlarge⟩ : ∃ t, teams.get? (lastMaxIdx teams) = some t := by
    rw [List.get?_eq_get hMlt]; exact ⟨_, rfl⟩
  obtain ⟨smallest, hsmall⟩ : ∃ t, teams.get? (firstMinIdx teams) = some t := by
    rw [List.get?_eq_get hmlt]; exact ⟨_, rfl⟩
  have ha : sizeAt teams (lastMaxIdx teams) = largest.players.length := by
    unfold sizeAt
    rw [hlarge]
    rfl
  have hb : sizeAt teams (firstMinIdx teams) = smallest.players.length := by
    unfold sizeAt
    rw [hsmall]
    rfl
  rw [ha, hb] at h2
  have hidx : lastMaxIdx teams ≠ firstMinIdx teams := by
    intro h
    rw [h, hsmall] at hlarge
    cases hlarge
    omega
  have hlp : largest.players ≠ [] := by
    intro h
    rw [h] at h2
    simp at h2
  obtain ⟨sid, hsid⟩ : ∃ s, largest.players.getLast? = some s := by
    cases hs : largest.players.getLast? with
    | none => exact absurd (List.getLast?_eq_none_iff.mp hs) hlp
    | some s => exact ⟨s, rfl⟩
  simp only [moveOnce, hlarge, hsmall, hsid, Option.toList_some]
  have hts1 := teamSizes_updAt teams (lastMaxIdx teams)
    (fun t => { t with players := t.players.dropLast }) largest hlarge
  have him1 : (updAt teams (lastMaxIdx teams)
      (fun t => { t with players := t.players.dropLast })).get? (firstMinIdx teams) =
      some smallest := by
    unfold updAt
    rw [hlarge, List.get?_set_ne _ _ hidx]
    exact hsmall
  have hts2 := teamSizes_updAt _ (firstMinIdx teams)
    (fun t => { t with players := t.players ++ [sid] }) smallest him1
  unfold sumSq
  rw [hts2, hts1]
  have hlsz : (teamSizes teams).length = teams.length := by simp [teamSizes]
  set sizes := teamSizes teams with hsizes
  set a := largest.players.length with hadef
  set b := smallest.players.length with hbdef
  have hdl : (largest.players.dropLast).length = a - 1 := by
    simp [List.length_dropLast]
  have hap : (smallest.players ++ [sid]).length = b + 1 := by simp
  rw [hdl, hap]
  have hgm : sizes.get? (lastMaxIdx teams) = some a := by
    rw [hsizes, teamSizes_get?, hlarge]; rfl
  have hgm' : sizes.get? (firstMinIdx teams) = some b := by
    rw [hsizes, teamSizes_get?, hsmall]; rfl
  have eq2 := sumSqL_set sizes (lastMaxIdx teams) (a - 1) (by omega)
  rw [hgm] at eq2
  have hget1 : ((sizes.set (lastMaxIdx teams) (a - 1)).get? (firstMinIdx teams)) =
      some b := by
    rw [List.get?_set_ne _ _ hidx]
    exact hgm'
  have eq1 := sumSqL_set (sizes.set (lastMaxIdx teams) (a - 1))
    (firstMinIdx teams) (b + 1) (by simp; omega)
  rw [hget1] at eq1
  simp only [Option.getD_some] at eq1 eq2
  obtain ⟨c, hac⟩ : ∃ c, a = c + 1 := ⟨a - 1, by omega⟩
  have hc1 : a - 1 = c := by omega
  rw [hc1] at eq1 eq2 ⊢
  have e1 : (b + 1) * (b + 1) = b * b + 2 * b + 1 := by ring
  have e2 : (c + 1) * (c + 1) = c * c + 2 * c + 1 := by ring
  rw [hac] at eq2
  rw [e2] at eq2
  rw [e1] at eq1
  omega

/-- `teamManager.balanceTeams(teams)` : while the size gap exceeds one, move
the popped member of the largest team (the last team of the stable ascending
sort) onto the smallest team (the first team of that sort) and recurse.  The
empty team list, on which the source would fault dereferencing
`sortedTeams[0]`, is returned unchanged. -/
def balanceTeams (reg : PMap) (teams : List Team) : List Team × PMap :=
  if h1 : maxSize teams - minSize teams > 1 then
    if h2 : sizeAt teams (lastMaxIdx teams) > sizeAt teams (firstMinIdx teams) + 1 then
      balanceTeams (moveOnce reg teams).2 (moveOnce reg teams).1
    else (teams, reg)
  else (teams, reg)
termination_by sumSq teams
decreasing_by
  exact sumSq_moveOnce_lt reg teams (gap_pos_ne_nil h1) h2

/-- The `forEach` loop of `teamManager.assignPlayersToTeams`: player at
position `i` of the shuffled order is pushed onto team `i % teams.length`,
and the registry records that team's id for them. -/
def assignLoop : PMap → List Team → Nat → List Player → List Team × PMap
  | reg, teams, _, [] => (teams, reg)
  | reg, teams, i, p :: rest =>
    let ti := i % teams.length
    let tid := ((teams.get? ti).map Team.id).getD 0
    assignLoop (setPlayerTeam reg p.socketId tid)
      (updAt teams ti (fun t => { t with players := t.players ++ [p.socketId] }))
      (i + 1) rest

/-- `teamManager.assignPlayersToTeams(playersMap, teams)` : the source first
shuffles the room's players uniformly (`shuffleArray`, a Fisher–Yates
shuffle); here `shuffled` is that already-shuffled order, so quantifying
over `shuffled` covers every permutation the shuffle can produce.  Existing
team memberships are cleared, then players are distributed round-robin. -/
def assignPlayersToTeams (reg : PMap) (shuffled : List Player)
    (teams : List Team) : List Team × PMap :=
  assignLoop reg (teams.map (fun t => { t with players := [] })) 0 shuffled

/-- `indexOf` + `splice(index, 1)` : remove the first occurrence only. -/
def removeFirstOcc : List String → String → List String
  | [], _ => []
  | a :: r, s => if a = s then r else a :: removeFirstOcc r s

/-- `teamManager.getTeamById(teams, teamId)`. -/
def getTeamById (teams : List Team) (teamId : Nat) : Option Team :=
  teams.find? (fun t => t.id == teamId)

/-- Push `sid` onto the first team whose id is `teamId` (the object
`getTeamById` aliases). -/
def pushToFirstWithId : List Team → Nat → String → List Team
  | [], _, _ => []
  | t :: rest, teamId, sid =>
    if t.id == teamId then { t with players := t.players ++ [sid] } :: rest
    else t :: pushToFirstWithId rest teamId sid

/-- Result record of `reassignPlayer`. -/
structure ReassignResult where
  success : Bool
  message : Option String
deriving Repr, DecidableEq

/-- `teamManager.reassignPlayer(teams, socketId, newTeamId)` : first strips
the socket id from every team, then looks the target team up; on a missing
target it reports failure with the memberships already stripped. -/
def reassignPlayer (reg : PMap) (teams : List Team) (socketId : String)
    (newTeamId : Nat) : List Team × PMap × ReassignResult :=
  let teams1 := teams.map (fun t => { t with players := removeFirstOcc t.players socketId })
  match getTeamById teams1 newTeamId with
  | some _ =>
    (pushToFirstWithId teams1 newTeamId socketId,
     setPlayerTeam reg socketId newTeamId, ⟨true, none⟩)
  | none => (teams1, reg, ⟨false, some "Team not found"⟩)

/-! ## RoomManager -/

/-- `CONFIG.MAX_PLAYERS_PER_ROOM`. -/
def MAX_PLAYERS_PER_ROOM : Nat := 20

/-- `CONFIG.MIN_PLAYERS_TO_START`. -/
def MIN_PLAYERS_TO_START : Nat := 2

/-- The room store `RoomManager.rooms : Map<roomId, Room>`. -/
abbrev Store := JMap Room

/-- `roomManager.roomExists(roomId)`. -/
def roomExists (store : Store) (roomId : String) : Bool :=
  (mapGet store roomId).isSome

/-- `roomManager.getRoom(roomId)`. -/
def getRoom (store : Store) (roomId : String) : Option Room :=
  mapGet store roomId

/-- `roomManager.deleteRoom(roomId)`. -/
def deleteRoom (store : Store) (roomId : String) : Store :=
  mapDelete store roomId

/-- `roomManager.createRoom(hostSocketId)` : `codes` is the stream of
successive `generateRoomCode()` outputs; the source retries by recursing
whenever the drawn code is already stored, with no attempt bound, so `none`
models the recursion still running after the listed outputs are spent.  On
success the room is stored with an empty player map. -/
def createRoom (codes : List String) (hostSocketId : String) (now : Nat)
    (store : Store) : Option (Store × Room) :=
  match codes with
  | [] => none
  | c :: rest =>
    if roomExists store c then createRoom rest hostSocketId now store
    else
      let room : Room :=
        { id := c
          hostSocketId := hostSocketId
          players := []
          teams := []
          currentTurn := 0
          gameStarted := false
          turnLocked := false
          createdAt := now }
      some (mapSet store c room, room)

/-- Result record of `addPlayerToRoom`. -/
structure AddResult where
  success : Bool
  message : Option String
deriving Repr, DecidableEq

/-- `roomManager.addPlayerToRoom(roomId, player)`. -/
def addPlayerToRoom (store : Store) (roomId : String) (player : Player) :
    Store × AddResult :=
  match getRoom store roomId with
  | none => (store, ⟨false, some "Room not found"⟩)
  | some room =>
    if room.gameStarted then (store, ⟨false, some "Game already started"⟩)
    else if room.players.length ≥ MAX_PLAYERS_PER_ROOM then
      (store, ⟨false, some "Room is full"⟩)
    else
      (mapSet store roomId
        { room with players := mapSet room.players player.socketId player },
       ⟨true, none⟩)

/-- Result record of `removePlayerFromRoom`. -/
structure RemoveResult where
  success : Bool
  shouldDeleteRoom : Bool
  room : Option Room
deriving Repr, DecidableEq

/-- `roomManager.removePlayerFromRoom(roomId, socketId)` : deletes the
member and strips them from every team; a room left empty is deleted on the
spot, otherwise a departing host hands privilege to the first remaining
member in insertion order. -/
def removePlayerFromRoom (store : Store) (roomId socketId : String) :
    Store × RemoveResult :=
  match getRoom store roomId with
  | none => (store, ⟨false, false, none⟩)
  | some room =>
    let room1 : Room :=
      { room with
        players := mapDelete room.players socketId
        teams := room.teams.map
          (fun t => { t with players := removeFirstOcc t.players socketId }) }
    if room1.players.length = 0 then
      (mapDelete store roomId, ⟨true, true, some room1⟩)
    else
      let room2 : Room :=
        if room1.hostSocketId = socketId ∧ 0 < room1.players.length then
          match room1.players.head? with
          | some e => { room1 with hostSocketId := e.2.socketId }
          | none => room1
        else room1
      (mapSet store roomId room2, ⟨true, false, some room2⟩)

/-- `roomManager.startGame(roomId)`. -/
def startGame (store : Store) (roomId : String) : Store × AddResult :=
  match getRoom store roomId with
  | none => (store, ⟨false, some "Room not found"⟩)
  | some room =>
    if room.gameStarted then (store, ⟨false, some "Game already started"⟩)
    else if room.players.length < MIN_PLAYERS_TO_START then
      (store, ⟨false, some "Need at least 2 players"⟩)
    else
      (mapSet store roomId { room with gameStarted := true }, ⟨true, none⟩)

/-! ## Lemmas about the JS `Map` embedding -/

lemma mapGet_mapSet_self {α : Type} (m : JMap α) (k : String) (v : α) :
    mapGet (mapSet m k v) k = some v := by
  induction m with
  | nil => simp [mapGet, mapSet]
  | cons e rest ih =>
    by_cases h : e.1 = k
    · simp [mapSet, mapGet, h]
    · simp [mapSet, mapGet, h, ih]

lemma mapGet_mapSet_ne {α : Type} (m : JMap α) (k k' : String) (v : α)
    (hne : k' ≠ k) : mapGet (mapSet m k v) k' = mapGet m k' := by
  induction m with
  | nil => simp [mapGet, mapSet, Ne.symm hne]
  | cons e rest ih =>
    by_cases h : e.1 = k
    · have h1 : ¬ k = k' := fun hk => hne hk.symm
      have h2 : ¬ e.1 = k' := fun hk => h1 (by rw [← h]; exact hk)
      simp [mapSet, mapGet, h, h1, h2]
    · by_cases h' : e.1 = k'
      · simp [mapSet, mapGet, h, h', hne]
      · simp [mapSet, mapGet, h, h', hne, ih]

lemma mem_mapSet {α : Type} {m : JMap α} {k : String} {v : α} {e : String × α}
    (h : e ∈ mapSet m k v) : e = (k, v) ∨ e ∈ m := by
  induction m with
  | nil => simpa [mapSet] using h
  | cons f rest ih =>
    by_cases hf : f.1 = k
    · simp only [mapSet, if_pos hf] at h
      rcases List.mem_cons.mp h with h' | h'
      · exact Or.inl h'
      · exact Or.inr (List.mem_cons_of_mem f h')
    · simp only [mapSet, if_neg hf] at h
      rcases List.mem_cons.mp h with h' | h'
      · exact Or.inr (h' ▸ List.mem_cons_self f rest)
      · rcases ih h' with h'' | h''
        · exact Or.inl h''
        · exact Or.inr (List.mem_cons_of_mem f h'')

lemma mapSet_ne_nil {α : Type} (m : JMap α) (k : String) (v : α) :
    mapSet m k v ≠ [] := by
  cases m with
  | nil => simp [mapSet]
  | cons e rest =>
    by_cases h : e.1 = k <;> simp [mapSet, h]

lemma mem_mapDelete {α : Type} {m : JMap α} {k : String} {e : String × α}
    (h : e ∈ mapDelete m k) : e ∈ m ∧ e.1 ≠ k := by
  induction m with
  | nil => simpa [mapDelete] using h
  | cons f rest ih =>
    by_cases hf : f.1 = k
    · simp only [mapDelete, if_pos hf] at h
      obtain ⟨h1, h2⟩ := ih h
      exact ⟨List.mem_cons_of_mem f h1, h2⟩
    · simp only [mapDelete, if_neg hf] at h
      rcases List.mem_cons.mp h with h' | h'
      · exact ⟨h' ▸ List.mem_cons_self f rest, h' ▸ hf⟩
      · obtain ⟨h1, h2⟩ := ih h'
        exact ⟨List.mem_cons_of_mem f h1, h2⟩

lemma mapGet_mapDelete_self {α : Type} (m : JMap α) (k : String) :
    mapGet (mapDelete m k) k = none := by
  induction m with
  | nil => simp [mapGet, mapDelete]
  | cons e rest ih =>
    by_cases h : e.1 = k
    · simpa [mapDelete, h] using ih
    · simpa [mapDelete, mapGet, h] using ih

lemma mapGet_isSome_of_mem {α : Type} {m : JMap α} {e : String × α}
    (h : e ∈ m) : (mapGet m e.1).isSome := by
  induction m with
  | nil => simp at h
  | cons f rest ih =>
    by_cases hf : f.1 = e.1
    · simp [mapGet, hf]
    · rcases List.mem_cons.mp h with h' | h'
      · exact absurd (congrArg Prod.fst h').symm hf
      · simpa [mapGet, hf] using ih h'

lemma mapDelete_not_mem {α : Type} (m : JMap α) (k : String)
    (h : ∀ e ∈ m, e.1 ≠ k) : mapDelete m k = m := by
  induction m with
  | nil => rfl
  | cons e rest ih =>
    have he := h e (List.mem_cons_self e rest)
    simp only [mapDelete, if_neg he]
    rw [ih (fun f hf => h f (List.mem_cons_of_mem e hf))]

lemma mapDelete_length {α : Type} (m : JMap α) (k : String)
    (hnd : (m.map Prod.fst).Nodup) (hmem : (mapGet m k).isSome) :
    (mapDelete m k).length + 1 = m.length := by
  induction m with
  | nil => simp [mapGet] at hmem
  | cons e rest ih =>
    rw [List.map_cons, List.nodup_cons] at hnd
    by_cases h : e.1 = k
    · have hrest : ∀ f ∈ rest, f.1 ≠ k := by
        intro f hf hk
        have : e.1 ∈ rest.map Prod.fst := by
          rw [h, ← hk]
          exact List.mem_map_of_mem Prod.fst hf
        exact hnd.1 this
      simp [mapDelete, h, mapDelete_not_mem rest k hrest]
    · have hmem' : (mapGet rest k).isSome := by
        simpa [mapGet, h] using hmem
      have := ih hnd.2 hmem'
      simp only [mapDelete, if_neg h, List.length_cons]
      omega

lemma getPlayer_setPlayerTeam (reg : PMap) (sid : String) (tid : Nat)
    (s : String) :
    getPlayer (setPlayerTeam reg sid tid) s =
      if s = sid then (getPlayer reg s).map (fun p => { p with teamId := some tid })
      else getPlayer reg s := by
  induction reg with
  | nil => by_cases h : s = sid <;> simp [getPlayer, setPlayerTeam, mapGet, h]
  | cons e rest ih =>
    by_cases hed : e.1 = sid
    · by_cases hes : e.1 = s
      · have hsd : s = sid := by rw [← hes, hed]
        simp [getPlayer, setPlayerTeam, mapGet, hed, hes, hsd]
      · have hsd : ¬ s = sid := fun hk => hes (by rw [hed, ← hk])
        have hds : ¬ sid = s := fun hk => hsd hk.symm
        simpa [getPlayer, setPlayerTeam, mapGet, hed, hes, hsd, hds] using ih
    · by_cases hes : e.1 = s
      · have hsd : ¬ s = sid := fun hk => hed (by rw [hes, hk])
        simp [getPlayer, setPlayerTeam, mapGet, hed, hes, hsd]
      · simpa [getPlayer, setPlayerTeam, mapGet, hed, hes] using ih

/-! ## Concrete fixtures used by counterexamples and witnesses -/

/-- A player registered under connection id `sid` with team `tid`. -/
def pA (sid : String) (tid : Option Nat) : Player :=
  ⟨"id-" ++ sid, sid, "u-" ++ sid, tid, true, 0, none⟩

/-- Registry holding exactly the connection `c1`, on no team. -/
def regC1 : PMap := [("c1", pA "c1" none)]

/-- A started, unlocked room whose team list is empty. -/
def roomC1 : Room := ⟨"R1", "c1", [("c1", pA "c1" none)], [], 0, true, false, 0⟩

/-- A started two-team room and a registry placing `c1` on team `0`. -/
def regW : PMap := [("c1", pA "c1" (some 0))]

/-- Companion room for `regW`: one team, game started, unlocked. -/
def roomW : Room :=
  ⟨"RW", "c1", [("c1", pA "c1" (some 0))], [⟨0, "Red", ["c1"], 0⟩], 0, true, false, 0⟩

/-! ## C1 — validateTurn -/

lemma getCurrentTeam_of_ne_nil (room : Room) (h : room.teams ≠ []) :
    ∃ t, getCurrentTeam room = some t := by
  unfold getCurrentTeam
  have hlen : room.teams.length ≠ 0 := fun hz => h (List.length_eq_zero.mp hz)
  rw [if_neg hlen]
  exact ⟨_, List.get?_eq_get (Nat.mod_lt _ (Nat.pos_of_ne_zero hlen))⟩

/-- C1 (counterexample): in the started, unlocked room `roomC1` with an
empty team list, the acting connection `c1` is a known player and its team
id (`null`) equals the current team id (`null`, as `getCurrentTeamId`
returns), so all four acceptance conditions of the claim hold — yet
`validateTurn` rejects, with the fifth reason `"No teams configured"` that
the claim does not account for. -/
theorem C1_counterexample :
    roomC1.gameStarted = true ∧ roomC1.turnLocked = false ∧
    getPlayer regC1 "c1" = some (pA "c1" none) ∧
    (pA "c1" none).teamId = getCurrentTeamId roomC1 ∧
    validateTurn regC1 roomC1 "c1" = VResult.reject "No teams configured" :=
  ⟨rfl, rfl, rfl, rfl, rfl⟩

/-- C1 (amended): `validateTurn` accepts exactly when the game has started,
the turn is unlocked, a current team exists (team list non-empty), the
connection resolves to a player, and that player's team id equals the
current team's id; acceptance yields the current team id, and each failed
check rejects with its reason, in source order — including the fifth
reason, `"No teams configured"`, for a started unlocked room with no
teams. -/
theorem C1_validateTurn_characterization (reg : PMap) (room : Room) (sid : String) :
    (∀ tid, validateTurn reg room sid = VResult.accept tid ↔
      (room.gameStarted = true ∧ room.turnLocked = false ∧
       getCurrentTeamId room = some tid ∧
       ∃ p, getPlayer reg sid = some p ∧ p.teamId = some tid)) ∧
    (room.gameStarted = false →
      validateTurn reg room sid = VResult.reject "Game has not started") ∧
    (room.gameStarted = true → room.turnLocked = true →
      validateTurn reg room sid = VResult.reject "Turn is locked, please wait") ∧
    (room.gameStarted = true → room.turnLocked = false → room.teams = [] →
      validateTurn reg room sid = VResult.reject "No teams configured") ∧
    (room.gameStarted = true → room.turnLocked = false → room.teams ≠ [] →
      getPlayer reg sid = none →
      validateTurn reg room sid = VResult.reject "Player not found") ∧
    (room.gameStarted = true → room.turnLocked = false →
      ∀ t, getCurrentTeam room = some t → ∀ p, getPlayer reg sid = some p →
        p.teamId ≠ some t.id →
        validateTurn reg room sid =
          VResult.reject ("Not your turn (waiting for " ++ t.name ++ ")")) := by
  refine ⟨?_, ?_, ?_, ?_, ?_, ?_⟩
  · intro tid
    constructor
    · intro h
      unfold validateTurn at h
      cases hg : room.gameStarted with
      | false => rw [hg] at h; simp at h
      | true =>
        cases hl : room.turnLocked with
        | true => rw [hg, hl] at h; simp at h
        | false =>
          rw [hg, hl] at h
          cases hct : getCurrentTeam room with
          | none => rw [hct] at h; simp at h
          | some t =>
            rw [hct] at h
            cases hgp : getPlayer reg sid with
            | none => rw [hgp] at h; simp at h
            | some p =>
              rw [hgp] at h
              by_cases hteam : p.teamId = some t.id
              · simp [hteam] at h
                exact ⟨rfl, rfl, by simp [getCurrentTeamId, hct, ← h],
                  p, rfl, h ▸ hteam⟩
              · simp [hteam] at h
    · rintro ⟨hg, hl, hct, p, hp, htid⟩
      obtain ⟨t, ht, hid⟩ : ∃ t, getCurrentTeam room = some t ∧ t.id = tid := by
        unfold getCurrentTeamId at hct
        cases h' : getCurrentTeam room with
        | none => rw [h'] at hct; simp at hct
        | some t => rw [h'] at hct; exact ⟨t, rfl, by simpa using hct⟩
      unfold validateTurn
      simp [hg, hl, ht, hp, htid, hid]
  · intro hg
    unfold validateTurn
    simp [hg]
  · intro hg hl
    unfold validateTurn
    simp [hg, hl]
  · intro hg hl hte
    unfold validateTurn
    have : getCurrentTeam room = none := by simp [getCurrentTeam, hte]
    simp [hg, hl, this]
  · intro hg hl hte hp
    obtain ⟨t, ht⟩ := getCurrentTeam_of_ne_nil room hte
    unfold validateTurn
    simp [hg, hl, ht, hp]
  · intro hg hl t ht p hp hne
    unfold validateTurn
    simp [hg, hl, ht, hp, hne]

/-- C1 (witness): the amended characterization instantiated at the concrete
one-team room `roomW`, where connection `c1` sits on the current team and
is accepted with its id. -/
theorem C1_validateTurn_characterization_witness :
    validateTurn regW roomW "c1" = VResult.accept 0 :=
  ((C1_validateTurn_characterization regW roomW "c1").1 0).mpr
    ⟨rfl, rfl, rfl, pA "c1" (some 0), rfl, rfl⟩

/-! ## C6 — createPlayer -/

/-- The record stored for connection `s` before re-registration. -/
def playerOld : Player := ⟨"p1", "s", "old", some 0, true, 0, some "R"⟩

/-- A registry already holding connection `s`. -/
def regC6 : PMap := [("s", playerOld)]

/-- C6 (counterexample): re-registering the already-known connection `s`
does not return the existing record: the returned player has a fresh id and
a reset team field, and the registry no longer holds the old record. -/
theorem C6_counterexample :
    getPlayer regC6 "s" = some playerOld ∧
    (createPlayer regC6 "s" none "p2" "q7rt" 5).2.id ≠ playerOld.id ∧
    (createPlayer regC6 "s" none "p2" "q7rt" 5).2.teamId ≠ playerOld.teamId ∧
    getPlayer (createPlayer regC6 "s" none "p2" "q7rt" 5).1 "s" ≠ some playerOld := by
  refine ⟨rfl, ?_, ?_, ?_⟩ <;> decide

/-- C6 (amended): `createPlayer` unconditionally builds a brand-new record
from the fresh nanoid draws and stores it with `set`, overwriting any
record held under the same connection id (last write wins); records under
other connection ids are untouched.  It is not idempotent. -/
theorem C6_createPlayer_overwrites (reg : PMap) (sid : String)
    (uname : Option String) (fid fsuf : String) (now : Nat) :
    (createPlayer reg sid uname fid fsuf now).2 =
      { id := fid, socketId := sid, username := uname.getD ("Player-" ++ fsuf),
        teamId := none, isConnected := true, connectedAt := now, roomId := none } ∧
    getPlayer (createPlayer reg sid uname fid fsuf now).1 sid =
      some (createPlayer reg sid uname fid fsuf now).2 ∧
    (∀ s, s ≠ sid →
      getPlayer (createPlayer reg sid uname fid fsuf now).1 s = getPlayer reg s) :=
  ⟨rfl, mapGet_mapSet_self reg sid _, fun s hs => mapGet_mapSet_ne reg sid s _ hs⟩

/-- C6 (witness): the overwrite theorem applied at the concrete registry
`regC6`, fresh draws `p2`/`q7rt`, and the unrelated connection id `t`. -/
theorem C6_createPlayer_overwrites_witness :
    getPlayer (createPlayer regC6 "s" none "p2" "q7rt" 5).1 "t" =
      getPlayer regC6 "t" :=
  (C6_createPlayer_overwrites regC6 "s" none "p2" "q7rt" 5).2.2 "t" (by decide)

/-! ## C8 — turn counter monotonicity -/

/-- An initialized, started two-team room sitting at turn counter 5. -/
def roomC8 : Room := ⟨"R8", "h", [("h", pA "h" (some 0))],
  [⟨0, "Red", [], 0⟩, ⟨1, "Blue", [], 0⟩], 5, true, false, 0⟩

/-- C8 (counterexample): on the initialized room `roomC8` at counter 5,
`setTurn` to team 0 forces the counter down to 0, and `resetTurns` does the
same — both take the counter from `k` to a value `≤ k`, refuting strict
increase. -/
theorem C8_counterexample :
    roomC8.currentTurn = 5 ∧
    (setTurn roomC8 0).currentTurn = 0 ∧
    (setTurn roomC8 0).currentTurn < roomC8.currentTurn ∧
    (resetTurns roomC8).currentTurn < roomC8.currentTurn := by
  refine ⟨rfl, ?_, ?_, ?_⟩ <;> decide

lemma getCurrentTeam_isSome_of_teams {room : Room} (h : room.teams ≠ []) :
    (getCurrentTeam room).isSome := by
  obtain ⟨t, ht⟩ := getCurrentTeam_of_ne_nil room h
  simp [ht]

lemma advanceTurn_teams (room : Room) : (advanceTurn room).1.teams = room.teams := by
  unfold advanceTurn
  split <;> rfl

lemma setTurn_teams (room : Room) (teamId : Nat) :
    (setTurn room teamId).teams = room.teams := by
  unfold setTurn
  split <;> rfl

/-- C8 (amended): `advanceTurn` strictly increases the counter on a started
room, but `setTurn` and `resetTurns` may lower it (to the target team's
ordinal, resp. to 0), as the counterexample shows; the current-team index
stays valid — a current team exists — after every turn-coordinator
operation whenever the team list is non-empty. -/
theorem C8_turn_counter (room : Room) (teamId : Nat) :
    (room.gameStarted = true →
      room.currentTurn < (advanceTurn room).1.currentTurn) ∧
    (room.teams ≠ [] →
      (getCurrentTeam (advanceTurn room).1).isSome ∧
      (getCurrentTeam (setTurn room teamId)).isSome ∧
      (getCurrentTeam (resetTurns room)).isSome ∧
      (getCurrentTeam (lockTurn room)).isSome ∧
      (getCurrentTeam (unlockTurn room)).isSome) := by
  constructor
  · intro hg
    unfold advanceTurn
    rw [hg]
    simp
  · intro h
    refine ⟨?_, ?_, ?_, ?_, ?_⟩
    · exact getCurrentTeam_isSome_of_teams (by rw [advanceTurn_teams]; exact h)
    · exact getCurrentTeam_isSome_of_teams (by rw [setTurn_teams]; exact h)
    · exact getCurrentTeam_isSome_of_teams (h : (resetTurns room).teams ≠ [])
    · exact getCurrentTeam_isSome_of_teams (h : (lockTurn room).teams ≠ [])
    · exact getCurrentTeam_isSome_of_teams (h : (unlockTurn room).teams ≠ [])

/-- C8 (witness): the amended theorem at `roomC8`, discharging both
hypotheses there. -/
theorem C8_turn_counter_witness :
    roomC8.currentTurn < (advanceTurn roomC8).1.currentTurn ∧
    (getCurrentTeam (setTurn roomC8 1)).isSome :=
  ⟨(C8_turn_counter roomC8 1).1 rfl,
   ((C8_turn_counter roomC8 1).2 (by decide)).2.1⟩

/-! ## C10 — reassignPlayer on a missing target team -/

/-- A team list in which connection `s` appears twice on one team. -/
def teamsC10 : List Team := [⟨0, "Red", ["s", "s"], 0⟩]

/-- A team list in which connection `s` appears once. -/
def teamsC10b : List Team := [⟨0, "Red", ["s", "x"], 0⟩]

/-- C10 (counterexample): with the duplicate-membership team list
`teamsC10` and the absent target id 99, `reassignPlayer` strips only the
first occurrence of `s`, so the player is still on team `Red` after the
`Team not found` failure — the claim's "left belonging to no team" fails
on this team list. -/
theorem C10_counterexample :
    getTeamById teamsC10 99 = none ∧
    reassignPlayer [] teamsC10 "s" 99 =
      ([⟨0, "Red", ["s"], 0⟩], [], ⟨false, some "Team not found"⟩) := by
  exact ⟨rfl, rfl⟩

lemma not_mem_removeFirstOcc (l : List String) (s : String)
    (h : l.count s ≤ 1) : s ∉ removeFirstOcc l s := by
  induction l with
  | nil => simp [removeFirstOcc]
  | cons a r ih =>
    by_cases ha : a = s
    · subst ha
      rw [List.count_cons_self] at h
      simpa [removeFirstOcc] using List.count_eq_zero.mp (by omega)
    · rw [List.count_cons_of_ne (fun hk => ha hk.symm)] at h
      simp only [removeFirstOcc, if_neg ha, List.mem_cons]
      rintro (rfl | hmem)
      · exact ha rfl
      · exact ih h hmem

/-- C10 (amended): `reassignPlayer` with a target id absent from the team
list strips the first occurrence of the connection id from every team's
member list, reports `Team not found` with success `false`, and leaves the
registry untouched — the pre-call memberships are not restored.  When no
member list holds the id more than once (the maintained invariant), the
player is left belonging to no team. -/
theorem C10_reassign_notAtomic (reg : PMap) (teams : List Team)
    (sid : String) (tid : Nat) (habs : ∀ t ∈ teams, t.id ≠ tid) :
    reassignPlayer reg teams sid tid =
      (teams.map (fun t => { t with players := removeFirstOcc t.players sid }),
       reg, ⟨false, some "Team not found"⟩) ∧
    ((∀ t ∈ teams, t.players.count sid ≤ 1) →
      ∀ t ∈ (reassignPlayer reg teams sid tid).1, sid ∉ t.players) := by
  have hnone : getTeamById
      (teams.map (fun t => { t with players := removeFirstOcc t.players sid }))
      tid = none := by
    unfold getTeamById
    rw [List.find?_eq_none]
    intro t ht
    obtain ⟨t0, ht0, rfl⟩ := List.mem_map.mp ht
    simpa using habs t0 ht0
  have hmain : reassignPlayer reg teams sid tid =
      (teams.map (fun t => { t with players := removeFirstOcc t.players sid }),
       reg, ⟨false, some "Team not found"⟩) := by
    simp only [reassignPlayer, hnone]
  refine ⟨hmain, ?_⟩
  intro hcnt t ht
  rw [hmain] at ht
  obtain ⟨t0, ht0, rfl⟩ := List.mem_map.mp ht
  exact not_mem_removeFirstOcc t0.players sid (hcnt t0 ht0)

/-- C10 (witness): the amended theorem at the single-occurrence list
`teamsC10b`: after the failed reassignment to the absent team 99,
connection `s` is on no team. -/
theorem C10_reassign_notAtomic_witness :
    "s" ∉ (Team.mk 0 "Red" ["x"] 0).players :=
  (C10_reassign_notAtomic [] teamsC10b "s" 99 (by decide)).2 (by decide)
    (Team.mk 0 "Red" ["x"] 0) (by decide)

/-! ## C5 — createRoom retry behavior -/

/-- A room already stored under code `AAAAAA`. -/
def roomC5 : Room := ⟨"AAAAAA", "h", [("h", pA "h" none)], [], 0, false, false, 0⟩

/-- A store in which the code `AAAAAA` is taken. -/
def storeC5 : Store := [("AAAAAA", roomC5)]

/-- C5: against a generator that keeps producing the already-taken code
`AAAAAA`, `createRoom` is still retrying after any number `n` of attempts —
there is no attempt bound and no `ResourceExhausted` outcome, only further
recursion.  On the success path, the stored code was previously free and
the new (empty-membered) room is stored under it. -/
theorem C5_createRoom_retry :
    (∀ n : Nat,
      createRoom (List.replicate n "AAAAAA") "h2" 7 storeC5 = none) ∧
    (∀ (codes : List String) (host : String) (now : Nat)
        (store store' : Store) (room : Room),
      createRoom codes host now store = some (store', room) →
      roomExists store room.id = false ∧
      getRoom store' room.id = some room ∧ room.players = []) := by
  constructor
  · intro n
    induction n with
    | zero => rfl
    | succ k ih =>
      rw [List.replicate_succ]
      unfold createRoom
      rw [if_pos (by rfl)]
      exact ih
  · intro codes
    induction codes with
    | nil =>
      intro host now store store' room h
      simp [createRoom] at h
    | cons c rest ih =>
      intro host now store store' room h
      unfold createRoom at h
      by_cases hex : roomExists store c = true
      · rw [if_pos hex] at h
        exact ih host now store store' room h
      · rw [if_neg hex] at h
        simp only [Option.some.injEq, Prod.mk.injEq] at h
        obtain ⟨h1, h2⟩ := h
        subst h2
        refine ⟨by simpa using hex, ?_, rfl⟩
        rw [← h1]
        exact mapGet_mapSet_self store c _

/-! ## C3 — room membership invariant -/

/-- The room `createRoom` stores before the host joins. -/
def roomEmptyA : Room := ⟨"AAAAAA", "h", [], [], 0, false, false, 0⟩

/-- C3 (counterexample): one `createRoom` call on the empty store stores a
room whose member set is empty — the store holds a room with zero members
until the host is separately added, refuting the "≥ 1 member at every
instant" invariant. -/
theorem C3_counterexample :
    createRoom ["AAAAAA"] "h" 0 [] = some ([("AAAAAA", roomEmptyA)], roomEmptyA) ∧
    roomExists [("AAAAAA", roomEmptyA)] "AAAAAA" = true ∧
    roomEmptyA.players = [] :=
  ⟨rfl, rfl, rfl⟩

/-- Every room stored has at least one member. -/
def StoreInv (store : Store) : Prop := ∀ e ∈ store, e.2.players ≠ []

/-- C3 (amended): removing the last remaining member of a room deletes it
synchronously (`roomExists` is false immediately after), and
`removePlayerFromRoom`/`addPlayerToRoom` preserve the nonempty-membership
invariant — but `createRoom` itself violates it by storing an empty room
until the host joins, as the counterexample shows. -/
lemma removePlayerFromRoom_deletes (store : Store) (rid sid : String)
    (room : Room) (hg : getRoom store rid = some room)
    (hz : (mapDelete room.players sid).length = 0) :
    removePlayerFromRoom store rid sid =
      (mapDelete store rid,
       ⟨true, true, some { room with
          players := mapDelete room.players sid,
          teams := room.teams.map
            (fun t => { t with players := removeFirstOcc t.players sid }) }⟩) := by
  unfold removePlayerFromRoom
  rw [hg]
  simp only [hz, if_pos]

lemma removePlayerFromRoom_keeps (store : Store) (rid sid : String)
    (room : Room) (hg : getRoom store rid = some room)
    (hz : ¬ (mapDelete room.players sid).length = 0) :
    ∃ room2 : Room,
      removePlayerFromRoom store rid sid =
        (mapSet store rid room2, ⟨true, false, some room2⟩) ∧
      room2.players = mapDelete room.players sid := by
  unfold removePlayerFromRoom
  rw [hg]
  simp only [hz, if_neg, ite_false]
  refine ⟨_, rfl, ?_⟩
  split
  · split <;> rfl
  · rfl

theorem C3_membership_invariant (store : Store) (rid sid : String)
    (player : Player) :
    (StoreInv store → StoreInv (removePlayerFromRoom store rid sid).1) ∧
    (StoreInv store → StoreInv (addPlayerToRoom store rid player).1) ∧
    (∀ room, getRoom store rid = some room → mapDelete room.players sid = [] →
      roomExists (removePlayerFromRoom store rid sid).1 rid = false) := by
  refine ⟨?_, ?_, ?_⟩
  · intro hinv
    cases hg : getRoom store rid with
    | none =>
      have heq : removePlayerFromRoom store rid sid = (store, ⟨false, false, none⟩) := by
        unfold removePlayerFromRoom
        rw [hg]
      rw [heq]
      exact hinv
    | some room =>
      by_cases hz : (mapDelete room.players sid).length = 0
      · rw [removePlayerFromRoom_deletes store rid sid room hg hz]
        intro e he
        exact hinv e (mem_mapDelete he).1
      · obtain ⟨room2, heq, hp⟩ := removePlayerFromRoom_keeps store rid sid room hg hz
        rw [heq]
        intro e he
        rcases mem_mapSet he with rfl | hmem
        · show room2.players ≠ []
          rw [hp]
          intro hcon
          exact hz (by rw [hcon]; rfl)
        · exact hinv e hmem
  · intro hinv
    unfold addPlayerToRoom
    cases hg : getRoom store rid with
    | none => exact hinv
    | some room =>
      dsimp only
      by_cases hs : room.gameStarted = true
      · rw [if_pos hs]
        exact hinv
      · rw [if_neg hs]
        by_cases hf : room.players.length ≥ MAX_PLAYERS_PER_ROOM
        · rw [if_pos hf]
          exact hinv
        · rw [if_neg hf]
          intro e he
          rcases mem_mapSet he with rfl | hmem
          · exact mapSet_ne_nil _ _ _
          · exact hinv e hmem
  · intro room hg hdel
    have hz : (mapDelete room.players sid).length = 0 := by rw [hdel]; rfl
    rw [removePlayerFromRoom_deletes store rid sid room hg hz]
    unfold roomExists
    rw [mapGet_mapDelete_self]
    rfl

/-- A one-member room and its store, for the C3 witness. -/
def roomC3 : Room := ⟨"R", "h", [("h", pA "h" none)], [], 0, false, false, 0⟩

/-- Store holding only `roomC3`. -/
def storeC3 : Store := [("R", roomC3)]

/-- C3 (witness): removing the only member `h` of `roomC3` deletes the
room: `roomExists` is false straight after. -/
theorem C3_membership_invariant_witness :
    roomExists (removePlayerFromRoom storeC3 "R" "h").1 "R" = false :=
  (C3_membership_invariant storeC3 "R" "h" (pA "x" none)).2.2 roomC3 rfl (by decide)

/-! ## C7 — advanceTurn is cyclic -/

lemma advanceTurn_started (room : Room) (h : room.gameStarted = true) :
    (advanceTurn room).1 =
      { room with currentTurn := room.currentTurn + 1, turnLocked := false } := by
  unfold advanceTurn
  rw [h]
  simp

lemma advanceN_spec (n : Nat) (room : Room) (h : room.gameStarted = true) :
    (advanceN n room).teams = room.teams ∧
    (advanceN n room).currentTurn = room.currentTurn + n ∧
    (advanceN n room).gameStarted = true := by
  induction n generalizing room with
  | zero => exact ⟨rfl, rfl, h⟩
  | succ k ih =>
    have h1 := advanceTurn_started room h
    have hs : (advanceTurn room).1.gameStarted = true := by rw [h1]; exact h
    obtain ⟨t1, t2, t3⟩ := ih (advanceTurn room).1 hs
    refine ⟨?_, ?_, t3⟩
    · show (advanceN k (advanceTurn room).1).teams = room.teams
      rw [t1, h1]
    · show (advanceN k (advanceTurn room).1).currentTurn = room.currentTurn + (k + 1)
      rw [t2, h1]
      show room.currentTurn + 1 + k = room.currentTurn + (k + 1)
      omega

/-- C7: in a started room with a fixed non-empty team list of length `T`,
applying `advanceTurn` `T` times returns the current team to its original
value, and each single application moves the current-team index from `k` to
`(k + 1) mod T`. -/
theorem C7_advanceTurn_cyclic (room : Room) (hg : room.gameStarted = true)
    (ht : room.teams ≠ []) :
    getCurrentTeam (advanceN room.teams.length room) = getCurrentTeam room ∧
    (advanceTurn room).1.currentTurn % room.teams.length =
      (room.currentTurn % room.teams.length + 1) % room.teams.length := by
  obtain ⟨t1, t2, _⟩ := advanceN_spec room.teams.length room hg
  constructor
  · unfold getCurrentTeam
    rw [t1, t2, Nat.add_mod_right]
  · rw [advanceTurn_started room hg]
    show (room.currentTurn + 1) % room.teams.length =
      (room.currentTurn % room.teams.length + 1) % room.teams.length
    exact ((Nat.mod_modEq room.currentTurn room.teams.length).add_right 1).symm

/-- A started room with two fixed teams, for the C7 witness. -/
def roomC7 : Room := ⟨"R7", "h", [("h", pA "h" (some 0))],
  [⟨0, "Red", ["h"], 0⟩, ⟨1, "Blue", [], 0⟩], 0, true, false, 0⟩

/-- C7 (witness): the cyclic property at the concrete two-team room
`roomC7`. -/
theorem C7_advanceTurn_cyclic_witness :
    getCurrentTeam (advanceN 2 roomC7) = getCurrentTeam roomC7 ∧
    (advanceTurn roomC7).1.currentTurn % 2 = (roomC7.currentTurn % 2 + 1) % 2 :=
  C7_advanceTurn_cyclic roomC7 rfl (by decide)

/-! ## C4 — host transfer on host removal -/

lemma removePlayerFromRoom_transfer (store : Store) (rid : String)
    (room : Room) (hget : getRoom store rid = some room)
    (hz : ¬ (mapDelete room.players room.hostSocketId).length = 0)
    (e : String × Player)
    (he : (mapDelete room.players room.hostSocketId).head? = some e) :
    removePlayerFromRoom store rid room.hostSocketId =
      (mapSet store rid
        { room with
            hostSocketId := e.2.socketId
            players := mapDelete room.players room.hostSocketId
            teams := room.teams.map
              (fun t => { t with
                players := removeFirstOcc t.players room.hostSocketId }) },
       ⟨true, false, some
        { room with
            hostSocketId := e.2.socketId
            players := mapDelete room.players room.hostSocketId
            teams := room.teams.map
              (fun t => { t with
                players := removeFirstOcc t.players room.hostSocketId }) }⟩) := by
  unfold removePlayerFromRoom
  rw [hget]
  simp only [hz, if_neg, ite_false]
  rw [if_pos (And.intro trivial (by omega)), he]

/-- C4: removing the member holding the host connection id from a room with
at least two members (well-formed: keys are unique and each entry is keyed
by its player's socket id) succeeds without deleting the room, and the
host privilege passes deterministically to the first remaining member in
insertion order: the result reports the room with the new
`hostSocketId`, which belongs to a remaining member and differs from the
removed host. -/
theorem C4_host_transfer (store : Store) (rid : String) (room : Room)
    (hget : getRoom store rid = some room)
    (hkv : ∀ e ∈ room.players, e.2.socketId = e.1)
    (hnd : (room.players.map Prod.fst).Nodup)
    (hhost : (mapGet room.players room.hostSocketId).isSome)
    (hsize : 2 ≤ room.players.length) :
    ∃ e : String × Player,
      (mapDelete room.players room.hostSocketId).head? = some e ∧
      e ∈ room.players ∧ e.2.socketId ≠ room.hostSocketId ∧
      ∃ room2 : Room,
        removePlayerFromRoom store rid room.hostSocketId =
          (mapSet store rid room2, ⟨true, false, some room2⟩) ∧
        room2.hostSocketId = e.2.socketId ∧
        getRoom (removePlayerFromRoom store rid room.hostSocketId).1 rid =
          some room2 := by
  have hlen := mapDelete_length room.players room.hostSocketId hnd hhost
  have hz : ¬ (mapDelete room.players room.hostSocketId).length = 0 := by omega
  obtain ⟨e, he⟩ : ∃ e, (mapDelete room.players room.hostSocketId).head? = some e := by
    cases hh : (mapDelete room.players room.hostSocketId).head? with
    | none =>
      rw [List.head?_eq_none_iff] at hh
      exact absurd (by rw [hh]; rfl) hz
    | some e => exact ⟨e, rfl⟩
  have hmemdel : e ∈ mapDelete room.players room.hostSocketId := by
    cases hl : mapDelete room.players room.hostSocketId with
    | nil => rw [hl] at he; cases he
    | cons a l =>
      rw [hl] at he
      injection he with h
      rw [← h]
      exact List.mem_cons_self a l
  obtain ⟨hmem, hne1⟩ := mem_mapDelete hmemdel
  have hkey := hkv e hmem
  refine ⟨e, he, hmem, by rw [hkey]; exact hne1, ?_⟩
  have heq := removePlayerFromRoom_transfer store rid room hget hz e he
  refine ⟨_, heq, rfl, ?_⟩
  rw [heq]
  exact mapGet_mapSet_self store rid _

/-- A two-member room hosted by `h`, and its store, for the C4 witness. -/
def roomC4 : Room :=
  ⟨"R", "h", [("h", pA "h" none), ("a", pA "a" none)], [], 0, false, false, 0⟩

/-- Store holding only `roomC4`. -/
def storeC4 : Store := [("R", roomC4)]

/-- The room left after the host of `roomC4` departs. -/
def roomC4r : Room := ⟨"R", "a", [("a", pA "a" none)], [], 0, false, false, 0⟩

/-- C4 (witness): removing host `h` from the two-member room `roomC4`
transfers the privilege to the first remaining member `a`, and the store
reports the updated room. -/
theorem C4_host_transfer_witness :
    getRoom (removePlayerFromRoom storeC4 "R" "h").1 "R" = some roomC4r := by
  obtain ⟨e, he, _, _, room2, heq, hh2, hst⟩ :=
    C4_host_transfer storeC4 "R" roomC4 rfl (by decide) (by decide)
      (by decide) (by decide)
  have hcomp : removePlayerFromRoom storeC4 "R" roomC4.hostSocketId =
      ([("R", roomC4r)], ⟨true, false, some roomC4r⟩) := rfl
  rw [hcomp] at heq
  have h2 : some roomC4r = some room2 := congrArg (fun x => x.2.room) heq
  injection h2 with h2
  rw [← h2] at hst
  exact hst

/-! ## C9 — balanceTeams termination and per-move behavior -/

/-- Four teams with sizes `[2, 2, 0, 0]`: still unbalanced after one move. -/
def teamsC9 : List Team :=
  [⟨0, "Red", ["a", "b"], 0⟩, ⟨1, "Blue", ["c", "d"], 0⟩,
   ⟨2, "Green", [], 0⟩, ⟨3, "Yellow", [], 0⟩]

/-- C9 (counterexample): on team sizes `[2, 2, 0, 0]` the gap is 2, and the
single rebalancing move the loop performs (sizes become `[2, 1, 1, 0]`)
leaves the gap at 2 — a move need not strictly reduce the size gap. -/
theorem C9_counterexample :
    maxSize teamsC9 - minSize teamsC9 > 1 ∧
    maxSize (moveOnce [] teamsC9).1 - minSize (moveOnce [] teamsC9).1 =
      maxSize teamsC9 - minSize teamsC9 := by
  exact ⟨by decide, by decide⟩

/-- `balanceTeams` unbalanced step never fires once the gap is at most 1. -/
lemma balanceTeams_noop (reg : PMap) (teams : List Team)
    (h : maxSize teams - minSize teams ≤ 1) :
    balanceTeams reg teams = (teams, reg) := by
  rw [balanceTeams]
  rw [dif_neg (by omega)]

lemma balance_gap_le (n : Nat) : ∀ (teams : List Team) (reg : PMap),
    sumSq teams ≤ n →
    maxSize (balanceTeams reg teams).1 - minSize (balanceTeams reg teams).1 ≤ 1 := by
  induction n using Nat.strong_induction_on with
  | _ n ih =>
    intro teams reg hn
    rw [balanceTeams]
    by_cases h1 : maxSize teams - minSize teams > 1
    · have hne := gap_pos_ne_nil h1
      obtain ⟨_, hM⟩ := lastMaxIdx_spec teams hne
      obtain ⟨_, hm⟩ := firstMinIdx_spec teams hne
      have h2 : sizeAt teams (lastMaxIdx teams) >
          sizeAt teams (firstMinIdx teams) + 1 := by
        rw [hM, hm]
        omega
      rw [dif_pos h1, dif_pos h2]
      have hlt := sumSq_moveOnce_lt reg teams hne (by omega)
      exact ih (sumSq (moveOnce reg teams).1) (by omega)
        (moveOnce reg teams).1 (moveOnce reg teams).2 Nat.le.refl
    · rw [dif_neg h1]
      show maxSize teams - minSize teams ≤ 1
      omega

/-- C9 (amended): `balanceTeams` terminates on every team list with the
size gap at most 1, because each rebalancing move strictly decreases the
sum of squared team sizes (so the move count is bounded by that sum, not by
the team count) — but a single move need not strictly reduce the max–min
gap itself, as the counterexample shows. -/
theorem C9_balance_termination (reg : PMap) (teams : List Team) :
    maxSize (balanceTeams reg teams).1 - minSize (balanceTeams reg teams).1 ≤ 1 ∧
    (maxSize teams - minSize teams > 1 →
      sumSq (moveOnce reg teams).1 < sumSq teams) := by
  constructor
  · exact balance_gap_le (sumSq teams) teams reg Nat.le.refl
  · intro h1
    have hne := gap_pos_ne_nil h1
    obtain ⟨_, hM⟩ := lastMaxIdx_spec teams hne
    obtain ⟨_, hm⟩ := firstMinIdx_spec teams hne
    exact sumSq_moveOnce_lt reg teams hne (by rw [hM, hm]; omega)

/-- C9 (witness): the per-move measure decrease at the concrete unbalanced
list `teamsC9`. -/
theorem C9_balance_termination_witness :
    sumSq (moveOnce [] teamsC9).1 < sumSq teamsC9 :=
  (C9_balance_termination [] teamsC9).2 (by decide)

/-! ## C2 — assignment plus balancing -/

/-- Number of round-robin slots `i, i+1, …, i+n-1` that land on team `j`
modulo `T`. -/
def cntFrom (i n T j : Nat) : Nat :=
  (List.range n).countP (fun k => (i + k) % T == j)

lemma cntFrom_zero (i T j : Nat) : cntFrom i 0 T j = 0 := rfl

lemma cntFrom_succ (i n T j : Nat) :
    cntFrom i (n + 1) T j =
      cntFrom (i + 1) n T j + (if i % T = j then 1 else 0) := by
  unfold cntFrom
  rw [List.range_succ_eq_map, List.countP_cons, List.countP_map]
  have hfun : ((fun k => ((i + k) % T == j)) ∘ Nat.succ) =
      (fun k => (((i + 1) + k) % T == j)) := by
    funext k
    simp only [Function.comp_apply]
    have : i + Nat.succ k = (i + 1) + k := by omega
    rw [this]
  rw [hfun]
  congr 1
  simp [beq_iff_eq]

lemma cntFrom_end (n T j : Nat) :
    cntFrom 0 (n + 1) T j = cntFrom 0 n T j + (if n % T = j then 1 else 0) := by
  unfold cntFrom
  rw [List.range_succ, List.countP_append]
  congr 1
  simp [List.countP_cons, beq_iff_eq]

lemma cntFrom_closed (T j : Nat) (hT : 0 < T) (hj : j < T) :
    ∀ n, cntFrom 0 n T j = n / T + (if j < n % T then 1 else 0) := by
  intro n
  induction n with
  | zero => simp [cntFrom]
  | succ m ih =>
    rw [cntFrom_end m T j, ih]
    have hmod : (m + 1) % T = (m % T + 1) % T :=
      ((Nat.mod_modEq m T).add_right 1).symm
    have hmlt : m % T < T := Nat.mod_lt m hT
    by_cases hcase : m % T + 1 < T
    · have h1 : (m + 1) % T = m % T + 1 := by
        rw [hmod]
        exact Nat.mod_eq_of_lt hcase
      have h2 : (m + 1) / T = m / T := by
        rw [Nat.succ_div]
        have hnd : ¬ T ∣ (m + 1) := by
          intro hd
          have := Nat.dvd_iff_mod_eq_zero.mp hd
          omega
        simp [hnd]
      rw [h1, h2]
      split_ifs <;> omega
    · have hTeq : m % T + 1 = T := by omega
      have h1 : (m + 1) % T = 0 := by
        rw [hmod, hTeq]
        exact Nat.mod_self T
      have h2 : (m + 1) / T = m / T + 1 := by
        rw [Nat.succ_div]
        have hd : T ∣ (m + 1) := Nat.dvd_iff_mod_eq_zero.mpr h1
        simp [hd]
      rw [h1, h2]
      split_ifs <;> omega

lemma updAt_get? (l : List Team) (i : Nat) (f : Team → Team) (j : Nat) :
    (updAt l i f).get? j = if i = j then (l.get? j).map f else l.get? j := by
  unfold updAt
  cases h : l.get? i with
  | none =>
    by_cases hij : i = j
    · subst hij
      rw [if_pos rfl, h]
      rfl
    · rw [if_neg hij]
  | some t0 =>
    by_cases hij : i = j
    · subst hij
      obtain ⟨hlt, _⟩ := List.get?_eq_some.mp h
      rw [if_pos rfl, List.get?_set_eq_of_lt _ (by simpa using hlt), h]
      rfl
    · rw [if_neg hij, List.get?_set_ne _ _ hij]

lemma sizeAt_updAt_append (teams : List Team) (ti : Nat) (sid : String)
    (hti : ti < teams.length) (j : Nat) :
    sizeAt (updAt teams ti (fun t => { t with players := t.players ++ [sid] })) j =
      sizeAt teams j + (if j = ti then 1 else 0) := by
  rw [sizeAt_eq, sizeAt_eq, teamSizes_get?, teamSizes_get?, updAt_get?]
  by_cases hij : ti = j
  · subst hij
    obtain ⟨t, ht⟩ : ∃ t, teams.get? ti = some t := by
      rw [List.get?_eq_get hti]
      exact ⟨_, rfl⟩
    rw [if_pos rfl, ht]
    simp

  · rw [if_neg hij, if_neg (fun h => hij h.symm)]
    omega

lemma assignLoop_length : ∀ (ps : List Player) (reg : PMap) (teams : List Team)
    (i : Nat), ((assignLoop reg teams i ps).1).length = teams.length := by
  intro ps
  induction ps with
  | nil => intro reg teams i; rfl
  | cons p rest ih =>
    intro reg teams i
    show ((assignLoop _ (updAt teams _ _) (i + 1) rest).1).length = teams.length
    rw [ih, length_updAt]

lemma assignLoop_sizeAt : ∀ (ps : List Player) (reg : PMap) (teams : List Team)
    (i j : Nat), 0 < teams.length → j < teams.length →
    sizeAt (assignLoop reg teams i ps).1 j =
      sizeAt teams j + cntFrom i ps.length teams.length j := by
  intro ps
  induction ps with
  | nil =>
    intro reg teams i j hT hj
    show sizeAt teams j = sizeAt teams j + cntFrom i 0 teams.length j
    rw [cntFrom_zero]
    omega
  | cons p rest ih =>
    intro reg teams i j hT hj
    have hti : i % teams.length < teams.length := Nat.mod_lt _ hT
    have hlen' : (updAt teams (i % teams.length)
        (fun t => { t with players := t.players ++ [p.socketId] })).length =
        teams.length := length_updAt _ _ _
    show sizeAt (assignLoop _ (updAt teams (i % teams.length) _) (i + 1) rest).1 j =
      sizeAt teams j + cntFrom i (rest.length + 1) teams.length j
    rw [ih _ _ (i + 1) j (by rw [hlen']; exact hT) (by rw [hlen']; exact hj),
      hlen', sizeAt_updAt_append teams _ _ hti j, cntFrom_succ]
    split_ifs <;> omega

/-- Total number of member slots across the team list. -/
def sumSizes (teams : List Team) : Nat := (teamSizes teams).sum

lemma sum_set_nat (l : List Nat) : ∀ (i v : Nat), i < l.length →
    (l.set i v).sum + (l.get? i).getD 0 = l.sum + v := by
  induction l with
  | nil => intro i v h; simp at h
  | cons a r ih =>
    intro i v h
    cases i with
    | zero => simp [List.set]; omega
    | succ n =>
      have hn : n < r.length := by simpa using h
      have := ih n v hn
      simp only [List.set, List.sum_cons, List.get?]
      omega

lemma sumSizes_updAt_append (teams : List Team) (ti : Nat) (sid : String)
    (hti : ti < teams.length) :
    sumSizes (updAt teams ti (fun t => { t with players := t.players ++ [sid] })) =
      sumSizes teams + 1 := by
  obtain ⟨t, ht⟩ : ∃ t, teams.get? ti = some t := by
    rw [List.get?_eq_get hti]
    exact ⟨_, rfl⟩
  unfold sumSizes
  rw [teamSizes_updAt teams ti _ t ht]
  have hlt : ti < (teamSizes teams).length := by simpa [teamSizes] using hti
  have h1 := sum_set_nat (teamSizes teams) ti ((t.players ++ [sid]).length) hlt
  have h2 : ((teamSizes teams).get? ti).getD 0 = t.players.length := by
    rw [teamSizes_get?, ht]
    rfl
  rw [h2] at h1
  simp only [List.length_append, List.length_cons, List.length_nil] at h1 ⊢
  omega

lemma assignLoop_sum : ∀ (ps : List Player) (reg : PMap) (teams : List Team)
    (i : Nat), 0 < teams.length →
    sumSizes (assignLoop reg teams i ps).1 = sumSizes teams + ps.length := by
  intro ps
  induction ps with
  | nil => intro reg teams i hT; rfl
  | cons p rest ih =>
    intro reg teams i hT
    have hti : i % teams.length < teams.length := Nat.mod_lt _ hT
    have hlen' : (updAt teams (i % teams.length)
        (fun t => { t with players := t.players ++ [p.socketId] })).length =
        teams.length := length_updAt _ _ _
    show sumSizes (assignLoop _ (updAt teams (i % teams.length) _) (i + 1) rest).1 =
      sumSizes teams + (rest.length + 1)
    rw [ih _ _ (i + 1) (by rw [hlen']; exact hT),
      sumSizes_updAt_append teams _ _ hti]
    omega

lemma mem_updAt_or {teams : List Team} {i : Nat} {f : Team → Team} {t : Team}
    (h : t ∈ updAt teams i f) :
    t ∈ teams ∨ ∃ t0, teams.get? i = some t0 ∧ t = f t0 := by
  unfold updAt at h
  cases hg : teams.get? i with
  | none =>
    rw [hg] at h
    exact Or.inl h
  | some t0 =>
    rw [hg] at h
    rcases List.mem_or_eq_of_mem_set h with h' | h'
    · exact Or.inl h'
    · exact Or.inr ⟨t0, rfl, h'⟩

lemma assignLoop_mem_persist : ∀ (ps : List Player) (reg : PMap)
    (teams : List Team) (i : Nat) (s : String),
    (∃ t ∈ teams, s ∈ t.players) →
    ∃ t ∈ (assignLoop reg teams i ps).1, s ∈ t.players := by
  intro ps
  induction ps with
  | nil => intro reg teams i s h; exact h
  | cons p rest ih =>
    intro reg teams i s h
    obtain ⟨t, ht, hs⟩ := h
    obtain ⟨j, hj⟩ := List.get?_of_mem ht
    apply ih
    by_cases hij : i % teams.length = j
    · refine ⟨{ t with players := t.players ++ [p.socketId] }, ?_, ?_⟩
      · apply List.get?_mem (n := j)
        rw [updAt_get?, if_pos hij, hj]
        rfl
      · exact List.mem_append_left _ hs
    · refine ⟨t, ?_, hs⟩
      apply List.get?_mem (n := j)
      rw [updAt_get?, if_neg hij]
      exact hj

lemma assignLoop_inv : ∀ (ps : List Player) (reg : PMap) (teams : List Team)
    (i : Nat),
    0 < teams.length →
    (ps.map Player.socketId).Nodup →
    (∀ p ∈ ps, (getPlayer reg p.socketId).isSome) →
    (∀ p ∈ ps, ∀ t ∈ teams, p.socketId ∉ t.players) →
    (∀ t ∈ teams, ∀ s ∈ t.players,
      ∃ pl, getPlayer reg s = some pl ∧ pl.teamId = some t.id) →
    (∀ t ∈ (assignLoop reg teams i ps).1, ∀ s ∈ t.players,
      ∃ pl, getPlayer (assignLoop reg teams i ps).2 s = some pl ∧
        pl.teamId = some t.id) ∧
    (∀ p ∈ ps, ∃ t ∈ (assignLoop reg teams i ps).1, p.socketId ∈ t.players) := by
  intro ps
  induction ps with
  | nil =>
    intro reg teams i hT hnd hreg hdisj hinv
    exact ⟨hinv, by intro p hp; simp at hp⟩
  | cons p rest ih =>
    intro reg teams i hT hnd hreg hdisj hinv
    have hti : i % teams.length < teams.length := Nat.mod_lt _ hT
    obtain ⟨t0, ht0⟩ : ∃ t0, teams.get? (i % teams.length) = some t0 := by
      rw [List.get?_eq_get hti]
      exact ⟨_, rfl⟩
    have ht0mem : t0 ∈ teams := List.get?_mem ht0
    have htid : ((teams.get? (i % teams.length)).map Team.id).getD 0 = t0.id := by
      rw [ht0]
      rfl
    rw [List.map_cons, List.nodup_cons] at hnd
    have hpns : p.socketId ∉ rest.map Player.socketId := hnd.1
    have hqp : ∀ q ∈ rest, q.socketId ≠ p.socketId := by
      intro q hq hk
      exact hpns (hk ▸ List.mem_map_of_mem Player.socketId hq)
    have hregstep : ∀ s, s ≠ p.socketId →
        getPlayer (setPlayerTeam reg p.socketId
          (((teams.get? (i % teams.length)).map Team.id).getD 0)) s =
        getPlayer reg s := by
      intro s hs
      rw [getPlayer_setPlayerTeam, if_neg hs]
    have hT' : 0 < (updAt teams (i % teams.length)
        (fun t => { t with players := t.players ++ [p.socketId] })).length := by
      rw [length_updAt]
      exact hT
    have hreg' : ∀ q ∈ rest,
        (getPlayer (setPlayerTeam reg p.socketId
          (((teams.get? (i % teams.length)).map Team.id).getD 0))
          q.socketId).isSome := by
      intro q hq
      rw [hregstep q.socketId (hqp q hq)]
      exact hreg q (List.mem_cons_of_mem p hq)
    have hdisj' : ∀ q ∈ rest, ∀ t ∈ updAt teams (i % teams.length)
        (fun t => { t with players := t.players ++ [p.socketId] }),
        q.socketId ∉ t.players := by
      intro q hq t ht
      rcases mem_updAt_or ht with h' | ⟨t1, ht1, rfl⟩
      · exact hdisj q (List.mem_cons_of_mem p hq) t h'
      · intro hmem
        rcases List.mem_append.mp hmem with h'' | h''
        · exact hdisj q (List.mem_cons_of_mem p hq) t1 (List.get?_mem ht1) h''
        · exact hqp q hq (by simpa using h'')
    have hinv' : ∀ t ∈ updAt teams (i % teams.length)
        (fun t => { t with players := t.players ++ [p.socketId] }),
        ∀ s ∈ t.players,
        ∃ pl, getPlayer (setPlayerTeam reg p.socketId
            (((teams.get? (i % teams.length)).map Team.id).getD 0)) s = some pl ∧
          pl.teamId = some t.id := by
      intro t ht s hs
      rcases mem_updAt_or ht with h' | ⟨t1, ht1, rfl⟩
      · have hsp : s ≠ p.socketId := by
          intro hk
          exact hdisj p (List.mem_cons_self p rest) t h' (hk ▸ hs)
        rw [hregstep s hsp]
        exact hinv t h' s hs
      · rcases List.mem_append.mp hs with h'' | h''
        · have hsp : s ≠ p.socketId := by
            intro hk
            exact hdisj p (List.mem_cons_self p rest) t1 (List.get?_mem ht1) (hk ▸ h'')
          rw [hregstep s hsp]
          exact hinv t1 (List.get?_mem ht1) s h''
        · have hsp : s = p.socketId := by simpa using h''
          subst hsp
          rw [getPlayer_setPlayerTeam, if_pos rfl]
          obtain ⟨pl, hpl⟩ := Option.isSome_iff_exists.mp
            (hreg p (List.mem_cons_self p rest))
          rw [hpl]
          refine ⟨_, rfl, ?_⟩
          rw [show ((teams.get? (i % teams.length)).map Team.id).getD 0 = t1.id
            from by rw [ht1]; rfl]
    obtain ⟨ih1, ih2⟩ := ih (setPlayerTeam reg p.socketId
        (((teams.get? (i % teams.length)).map Team.id).getD 0))
      (updAt teams (i % teams.length)
        (fun t => { t with players := t.players ++ [p.socketId] }))
      (i + 1) (by rw [length_updAt]; exact hT) hnd.2 hreg' hdisj' hinv'
    have hstep : assignLoop reg teams i (p :: rest) =
        assignLoop (setPlayerTeam reg p.socketId
            (((teams.get? (i % teams.length)).map Team.id).getD 0))
          (updAt teams (i % teams.length)
            (fun t => { t with players := t.players ++ [p.socketId] }))
          (i + 1) rest := rfl
    refine ⟨ih1, ?_⟩
    intro q hq
    rcases List.mem_cons.mp hq with rfl | hq'
    · rw [hstep]
      apply assignLoop_mem_persist
      refine ⟨{ t0 with players := t0.players ++ [q.socketId] }, ?_, ?_⟩
      · apply List.get?_mem (n := i % teams.length)
        rw [updAt_get?, if_pos rfl, ht0]
        rfl
      · exact List.mem_append_right _ (List.mem_cons_self _ _)
    · exact ih2 q hq'

lemma maxL_le (l : List Nat) (b : Nat) (h : ∀ x ∈ l, x ≤ b) : maxL l ≤ b := by
  induction l with
  | nil => exact Nat.zero_le b
  | cons a r ih =>
    exact Nat.max_le.mpr ⟨h a (List.mem_cons_self a r),
      ih (fun x hx => h x (List.mem_cons_of_mem a hx))⟩

lemma le_minL (l : List Nat) (b : Nat) (hne : l ≠ []) (h : ∀ x ∈ l, b ≤ x) :
    b ≤ minL l :=
  h _ (mem_minL l hne)

lemma sizeAt_cleared (teams : List Team) (j : Nat) (hj : j < teams.length) :
    sizeAt (teams.map (fun t => { t with players := [] })) j = 0 := by
  obtain ⟨t, ht⟩ : ∃ t, teams.get? j = some t := by
    rw [List.get?_eq_get hj]
    exact ⟨_, rfl⟩
  unfold sizeAt
  rw [List.get?_map, ht]
  rfl

lemma sumSizes_cleared (teams : List Team) :
    sumSizes (teams.map (fun t => { t with players := [] })) = 0 := by
  unfold sumSizes
  apply List.sum_eq_zero
  intro x hx
  unfold teamSizes at hx
  rw [List.map_map] at hx
  obtain ⟨t, _, rfl⟩ := List.mem_map.mp hx
  rfl

/-- C2: for any registry-registered collection of players with distinct
connection ids (`shuffled`: the post-shuffle order, so every permutation is
covered) and any non-empty team list, running `assignPlayersToTeams`
followed by `balanceTeams` yields teams whose sizes sum to the player
count, whose maximum and minimum sizes differ by at most one, with every
player placed on some team and every placed connection id's registry
record carrying the id of the team that contains it. -/
theorem C2_assign_balance (reg : PMap) (teams : List Team)
    (shuffled : List Player) (hT : teams ≠ [])
    (hnd : (shuffled.map Player.socketId).Nodup)
    (hreg : ∀ p ∈ shuffled, (getPlayer reg p.socketId).isSome) :
    sumSizes (balanceTeams (assignPlayersToTeams reg shuffled teams).2
        (assignPlayersToTeams reg shuffled teams).1).1 = shuffled.length ∧
    maxSize (balanceTeams (assignPlayersToTeams reg shuffled teams).2
        (assignPlayersToTeams reg shuffled teams).1).1 -
      minSize (balanceTeams (assignPlayersToTeams reg shuffled teams).2
        (assignPlayersToTeams reg shuffled teams).1).1 ≤ 1 ∧
    (∀ p ∈ shuffled,
      ∃ t ∈ (balanceTeams (assignPlayersToTeams reg shuffled teams).2
          (assignPlayersToTeams reg shuffled teams).1).1,
        p.socketId ∈ t.players) ∧
    (∀ t ∈ (balanceTeams (assignPlayersToTeams reg shuffled teams).2
        (assignPlayersToTeams reg shuffled teams).1).1, ∀ s ∈ t.players,
      ∃ pl, getPlayer (balanceTeams (assignPlayersToTeams reg shuffled teams).2
          (assignPlayersToTeams reg shuffled teams).1).2 s = some pl ∧
        pl.teamId = some t.id) := by
  have hTpos : 0 < teams.length := List.length_pos.mpr hT
  have hr1 : assignPlayersToTeams reg shuffled teams =
      assignLoop reg (teams.map (fun t => { t with players := [] })) 0 shuffled := rfl
  have hclen : (teams.map (fun t => { t with players := [] })).length =
      teams.length := by simp
  have hlen1 : (assignLoop reg (teams.map (fun t => { t with players := [] }))
      0 shuffled).1.length = teams.length := by
    rw [assignLoop_length, hclen]
  have hszist : ∀ j, j < teams.length →
      sizeAt (assignLoop reg (teams.map (fun t => { t with players := [] }))
        0 shuffled).1 j =
      shuffled.length / teams.length +
        (if j < shuffled.length % teams.length then 1 else 0) := by
    intro j hj
    rw [assignLoop_sizeAt shuffled reg _ 0 j (by rw [hclen]; exact hTpos)
      (by rw [hclen]; exact hj)]
    rw [sizeAt_cleared teams j hj, hclen,
      cntFrom_closed teams.length j hTpos hj shuffled.length]
    omega
  have hbound : ∀ x ∈ teamSizes (assignLoop reg
      (teams.map (fun t => { t with players := [] })) 0 shuffled).1,
      shuffled.length / teams.length ≤ x ∧
        x ≤ shuffled.length / teams.length + 1 := by
    intro x hx
    obtain ⟨j, hj⟩ := List.get?_of_mem hx
    have hjlt : j < teams.length := by
      obtain ⟨hlt, _⟩ := List.get?_eq_some.mp hj
      simpa [teamSizes, hlen1] using hlt
    have hx' : sizeAt (assignLoop reg
        (teams.map (fun t => { t with players := [] })) 0 shuffled).1 j = x := by
      rw [sizeAt_eq, hj]
      rfl
    rw [hszist j hjlt] at hx'
    split_ifs at hx' <;> omega
  have hminne : teamSizes (assignLoop reg
      (teams.map (fun t => { t with players := [] })) 0 shuffled).1 ≠ [] := by
    have hlt : 0 < (teamSizes (assignLoop reg
        (teams.map (fun t => { t with players := [] })) 0 shuffled).1).length := by
      rw [show (teamSizes (assignLoop reg
          (teams.map (fun t => { t with players := [] })) 0 shuffled).1).length =
          (assignLoop reg (teams.map (fun t => { t with players := [] }))
            0 shuffled).1.length from by simp [teamSizes], hlen1]
      exact hTpos
    intro hnil
    rw [hnil] at hlt
    simp at hlt
  have hmax := maxL_le _ _ (fun x hx => (hbound x hx).2)
  have hmin := le_minL _ _ hminne (fun x hx => (hbound x hx).1)
  have hgap : maxSize (assignLoop reg
      (teams.map (fun t => { t with players := [] })) 0 shuffled).1 -
      minSize (assignLoop reg
        (teams.map (fun t => { t with players := [] })) 0 shuffled).1 ≤ 1 := by
    have e1 : maxSize (assignLoop reg
        (teams.map (fun t => { t with players := [] })) 0 shuffled).1 =
        maxL (teamSizes (assignLoop reg
          (teams.map (fun t => { t with players := [] })) 0 shuffled).1) := rfl
    have e2 : minSize (assignLoop reg
        (teams.map (fun t => { t with players := [] })) 0 shuffled).1 =
        minL (teamSizes (assignLoop reg
          (teams.map (fun t => { t with players := [] })) 0 shuffled).1) := rfl
    rw [e1, e2]
    omega
  have hnoop := balanceTeams_noop (assignLoop reg
      (teams.map (fun t => { t with players := [] })) 0 shuffled).2
    (assignLoop reg (teams.map (fun t => { t with players := [] }))
      0 shuffled).1 hgap
  have hdisj0 : ∀ p ∈ shuffled,
      ∀ t ∈ teams.map (fun t => { t with players := ([] : List String) }),
      p.socketId ∉ t.players := by
    intro p hp t ht
    obtain ⟨t0, _, rfl⟩ := List.mem_map.mp ht
    simp
  have hinv0 : ∀ t ∈ teams.map (fun t => { t with players := ([] : List String) }),
      ∀ s ∈ t.players,
      ∃ pl, getPlayer reg s = some pl ∧ pl.teamId = some t.id := by
    intro t ht s hs
    obtain ⟨t0, _, rfl⟩ := List.mem_map.mp ht
    simp at hs
  obtain ⟨hmatch, hmem⟩ := assignLoop_inv shuffled reg
    (teams.map (fun t => { t with players := [] })) 0
    (by rw [hclen]; exact hTpos) hnd hreg hdisj0 hinv0
  have hsum : sumSizes (assignLoop reg
      (teams.map (fun t => { t with players := [] })) 0 shuffled).1 =
      shuffled.length := by
    rw [assignLoop_sum shuffled reg _ 0 (by rw [hclen]; exact hTpos),
      sumSizes_cleared]
    omega
  rw [hr1, hnoop]
  exact ⟨hsum, hgap, hmem, hmatch⟩

/-- Five registered players for the C2 witness. -/
def ps5 : List Player := ["a", "b", "c", "d", "e"].map (fun s => pA s none)

/-- Registry holding exactly the five players of `ps5`. -/
def reg5 : PMap := ps5.map (fun p => (p.socketId, p))

/-- Two teams awaiting assignment (one stale member, cleared on assign). -/
def tt2 : List Team := [⟨0, "Red", ["x"], 0⟩, ⟨1, "Blue", [], 0⟩]

/-- C2 (witness): five players over two teams — after assignment plus
balancing the sizes sum to 5. -/
theorem C2_assign_balance_witness :
    sumSizes (balanceTeams (assignPlayersToTeams reg5 ps5 tt2).2
        (assignPlayersToTeams reg5 ps5 tt2).1).1 = 5 :=
  (C2_assign_balance reg5 tt2 ps5 (by decide) (by decide) (by decide)).1

end MusicMaster
